import Mathlib

/-!
Verification of the byteps gradient-compression core: the RandomK
sparsification compressor (`byteps/common/compressor/impl/randomk.h`) and the
vanilla-momentum decorator (`byteps/common/compressor/strategy/vanilla_momentum.h`).

Tensors are embedded as `List ℚ` (dtype-generic scalar values), compressed
buffers as lists of (index, value) records, and the pseudo-random generator
state as a natural number advanced by a deterministic step function.  The
method bodies of `Compress`, `Decompress`, `FastUpdateError`, the packing and
unpacking routines and `UpdateMom` are not part of the header files, so they
are modelled from the specification text; the `RandomkCompressor` constructor
is given in full in the header and is embedded directly from it.
-/

namespace Byteps

/-- One advance of the pseudo-random generator state, modelling a 64-bit
linear congruential step.  It stands in for the mt19937 state transition:
the properties proved below depend only on it being a deterministic
function of the previous state. -/
def lcgNext (g : Nat) : Nat :=
  (6364136223846793005 * g + 1442695040888963407) % 2 ^ 64

/-- Seeding the generator (`_gen.seed(s)`): the resulting state is a
deterministic function of the seed value. -/
def seedState (s : Nat) : Nat :=
  s % 2 ^ 64

/-- State of a `RandomkCompressor` instance: the configured element count
`size`, the retained-entry count `k`, and the generator state `gen`
(`randomk.h`: fields `_k`, `_gen`, plus `size` from the `Compressor` base). -/
structure RandomkCompressor where
  size : Nat
  k : Nat
  gen : Nat
deriving Repr, DecidableEq

/-- The `RandomkCompressor` constructor, embedded from `randomk.h` lines
40-48: if `deterministic` the generator is seeded with `seed`; otherwise it
is seeded with one read of the entropy source `_rd()`, whose outcome is the
explicit argument `entropy`. -/
def mkRandomkCompressor (size k seed : Nat) (deterministic : Bool)
    (entropy : Nat) : RandomkCompressor :=
  { size := size
    k := k
    gen := if deterministic then seedState seed else seedState entropy }

/-- Modelled from the spec: draw `n` indices from `pool` without replacement
(a partial Fisher-Yates selection), the generator state advancing with every
draw.  Returns the drawn indices in selection order together with the final
generator state. -/
def drawFrom : Nat → Nat → List Nat → List Nat × Nat
  | g, 0, _ => ([], g)
  | g, _ + 1, [] => ([], g)
  | g, n + 1, x :: p =>
    let g1 := lcgNext g
    let j := g1 % (x :: p).length
    let picked := (x :: p).getD j x
    let rest := (x :: p).eraseIdx j
    let res := drawFrom g1 n rest
    (picked :: res.1, res.2)

/-- Modelled from the spec: `RandomkCompressor::Compress` body.  Draw `k`
indices from `[0, size)` without replacement using the generator state and
emit one (index, value) record per drawn index, the value taken from `grad`
at that index.  Returns the record list and the advanced generator state. -/
def compressImpl (g k : Nat) (grad : List ℚ) : List (Nat × ℚ) × Nat :=
  let res := drawFrom g k (List.range grad.length)
  (res.1.map fun i => (i, grad.getD i 0), res.2)

/-- `Compress` at the instance level: runs `compressImpl` on the instance
generator state and stores the advanced state back. -/
def RandomkCompressor.Compress (c : RandomkCompressor) (grad : List ℚ) :
    List (Nat × ℚ) × RandomkCompressor :=
  let res := compressImpl c.gen c.k grad
  (res.1, { c with gen := res.2 })

/-- Modelled from the spec: `RandomkCompressor::Decompress` body.  Zero-fill
a `size`-element output buffer, then for each (index, value) record write
`value` at `index`. -/
def decompressImpl (size : Nat) (recs : List (Nat × ℚ)) : List ℚ :=
  recs.foldl (fun acc r => acc.set r.1 r.2) (List.replicate size 0)

/-- `Decompress` at the instance level. -/
def RandomkCompressor.Decompress (c : RandomkCompressor)
    (recs : List (Nat × ℚ)) : List ℚ :=
  decompressImpl c.size recs

/-- Modelled from the spec and the `randomk.h` doc comment of
`FastUpdateError` ("1. e <- p; 2. zero-fill e with selected k indices"):
copy `corrected` into the error buffer, then for each record in the
compressed payload set the entry at its index to 0.  Only the index field
of each record is read. -/
def fastUpdateErrorImpl (corrected : List ℚ) (recs : List (Nat × ℚ)) :
    List ℚ :=
  recs.foldl (fun acc r => acc.set r.1 0) corrected

/-- `FastUpdateError` at the instance level. -/
def RandomkCompressor.FastUpdateError (c : RandomkCompressor)
    (corrected : List ℚ) (recs : List (Nat × ℚ)) : List ℚ :=
  fastUpdateErrorImpl corrected recs

/-- Modelled from the spec: `update_error` sets the error buffer to a copy
of `corrected` and zeroes the entries at every selected index; semantically
identical to `fast_update_error`. -/
def RandomkCompressor.UpdateError (c : RandomkCompressor)
    (corrected : List ℚ) (recs : List (Nat × ℚ)) : List ℚ :=
  fastUpdateErrorImpl corrected recs

/-- Feed a sequence of gradients to a compressor instance, threading the
generator state; returns the sequence of packed record lists. -/
def runCompress (c : RandomkCompressor) : List (List ℚ) → List (List (Nat × ℚ))
  | [] => []
  | grad :: rest =>
    let res := c.Compress grad
    res.1 :: runCompress res.2 rest

/-- Modelled from the spec: the index field of a packed record uses the
smallest unsigned integer width (1, 2, 4 or 8 bytes) able to represent
`size - 1`. -/
def indexBytes (size : Nat) : Nat :=
  if size ≤ 2 ^ 8 then 1
  else if size ≤ 2 ^ 16 then 2
  else if size ≤ 2 ^ 32 then 4
  else 8

/-- Little-endian encoding of a natural number into `w` bytes. -/
def toLE : Nat → Nat → List Nat
  | 0, _ => []
  | w + 1, n => n % 256 :: toLE w (n / 256)

/-- Little-endian decoding of a byte list back into a natural number. -/
def fromLE : List Nat → Nat
  | [] => 0
  | b :: bs => b % 256 + 256 * fromLE bs

/-- Modelled from the spec: `Packing` / `PackingImpl` body.  Each record is
the index in the minimal width for `size` followed by the encoded value
(`venc`, the configured element width); the buffer is the flat concatenation
of the records, with no header. -/
def packBuffer (size : Nat) (venc : ℚ → List Nat)
    (recs : List (Nat × ℚ)) : List Nat :=
  (recs.map fun r => toLE (indexBytes size) r.1 ++ venc r.2).flatten

/-- Modelled from the spec: `Unpacking` / `UnpackingImpl` reading side.  The
record count `k`, the index width (derived from `size`) and the value width
`vw` with decoder `vdec` are supplied out-of-band; the buffer itself carries
no header. -/
def unpackBuffer (iw vw : Nat) (vdec : List Nat → ℚ) :
    Nat → List Nat → List (Nat × ℚ)
  | 0, _ => []
  | n + 1, bytes =>
    (fromLE (bytes.take iw), vdec ((bytes.drop iw).take vw)) ::
      unpackBuffer iw vw vdec n ((bytes.drop iw).drop vw)

/-- Feed a sequence of gradients to a compressor instance and serialize each
packed output to bytes, threading the generator state. -/
def runCompressBytes (venc : ℚ → List Nat) (c : RandomkCompressor) :
    List (List ℚ) → List (List Nat)
  | [] => []
  | grad :: rest =>
    let res := c.Compress grad
    packBuffer c.size venc res.1 :: runCompressBytes venc res.2 rest

/-- Modelled from the spec: configuration errors (`k > size`, `size = 0`,
element-count mismatch between the instance and the call argument) are
fatal; the operation fails fast with a non-retryable error instead of
proceeding. -/
def RandomkCompressor.CompressChecked (c : RandomkCompressor)
    (grad : List ℚ) : Except String (List (Nat × ℚ) × RandomkCompressor) :=
  if c.size = 0 then .error "configuration error: size = 0"
  else if c.size < c.k then .error "configuration error: k > size"
  else if grad.length ≠ c.size then
    .error "configuration error: element-count mismatch"
  else .ok (c.Compress grad)

/-- Modelled from the spec: checked `Decompress`; the record count of the
call argument must match the configured `k`. -/
def RandomkCompressor.DecompressChecked (c : RandomkCompressor)
    (recs : List (Nat × ℚ)) : Except String (List ℚ) :=
  if c.size = 0 then .error "configuration error: size = 0"
  else if c.size < c.k then .error "configuration error: k > size"
  else if recs.length ≠ c.k then
    .error "configuration error: element-count mismatch"
  else .ok (c.Decompress recs)

/-- Modelled from the spec: checked `FastUpdateError`; the error/corrected
buffer must have exactly `size` elements. -/
def RandomkCompressor.FastUpdateErrorChecked (c : RandomkCompressor)
    (corrected : List ℚ) (recs : List (Nat × ℚ)) : Except String (List ℚ) :=
  if c.size = 0 then .error "configuration error: size = 0"
  else if c.size < c.k then .error "configuration error: k > size"
  else if corrected.length ≠ c.size then
    .error "configuration error: element-count mismatch"
  else .ok (c.FastUpdateError corrected recs)

/-- Modelled from the spec: `VanillaMomentumCompressor::UpdateMom` body,
declared in `vanilla_momentum.h` line 32: `momentum <- mu * momentum + grad`
element-wise. -/
def UpdateMom (mu : ℚ) (grad mom : List ℚ) : List ℚ :=
  List.zipWith (fun g m => mu * m + g) grad mom

/-- Modelled from the spec: state of a `Momentum` decorator wrapping an
abstract inner compressor given as a stateful compress function (the single
extension point is the update rule; here the vanilla heavy-ball rule).  The
momentum buffer is owned by the decorator and zero-initialized at
construction. -/
structure MomentumCompressor (σ : Type) where
  mu : ℚ
  mom : List ℚ
  innerCompress : List ℚ → σ → List (Nat × ℚ) × σ
  innerState : σ

/-- A fresh vanilla-momentum decorator: momentum buffer zero-initialized to
the configured size. -/
def mkMomentum (σ : Type) (mu : ℚ) (size : Nat)
    (innerCompress : List ℚ → σ → List (Nat × ℚ) × σ) (s0 : σ) :
    MomentumCompressor σ :=
  { mu := mu
    mom := List.replicate size 0
    innerCompress := innerCompress
    innerState := s0 }

/-- Modelled from the spec: `Momentum::Compress` first runs the update hook,
mutating the momentum buffer in place, then forwards the updated momentum
buffer (not the raw gradient) to the wrapped compressor and returns the
wrapped result unchanged.  Also returns the value that was forwarded, so the
interception can be stated. -/
def MomentumCompressor.Compress {σ : Type} (m : MomentumCompressor σ)
    (grad : List ℚ) : List (Nat × ℚ) × List ℚ × MomentumCompressor σ :=
  let mom1 := UpdateMom m.mu grad m.mom
  let res := m.innerCompress mom1 m.innerState
  (res.1, mom1, { m with mom := mom1, innerState := res.2 })

/-- The momentum decorator wrapping a concrete `RandomkCompressor`, used to
state the pass-through of the non-compress operations. -/
structure MomentumRk where
  mu : ℚ
  mom : List ℚ
  inner : RandomkCompressor

/-- Modelled from the spec: the decorator forwards `decompress` unchanged to
the wrapped compressor. -/
def MomentumRk.Decompress (m : MomentumRk) (recs : List (Nat × ℚ)) :
    List ℚ :=
  m.inner.Decompress recs

/-- Modelled from the spec: the decorator forwards `update_error` unchanged
to the wrapped compressor. -/
def MomentumRk.UpdateError (m : MomentumRk) (corrected : List ℚ)
    (recs : List (Nat × ℚ)) : List ℚ :=
  m.inner.UpdateError corrected recs

/-- Modelled from the spec: the decorator forwards `fast_update_error`
unchanged to the wrapped compressor. -/
def MomentumRk.FastUpdateError (m : MomentumRk) (corrected : List ℚ)
    (recs : List (Nat × ℚ)) : List ℚ :=
  m.inner.FastUpdateError corrected recs

/-! ### Basic list helper lemmas -/

theorem getD_eq_getElem_of_lt {α : Type} (l : List α) (d : α) (j : Nat)
    (hj : j < l.length) : l.getD j d = l[j] := by
  rw [List.getD_eq_getElem?_getD, List.getElem?_eq_getElem hj, Option.getD_some]

theorem getElem_not_mem_eraseIdx (l : List Nat) (j : Nat) (hj : j < l.length)
    (h : l.Nodup) : l[j] ∉ l.eraseIdx j := by
  intro hmem
  rw [List.mem_eraseIdx_iff_getElem] at hmem
  obtain ⟨i, hi, hij, hEq⟩ := hmem
  exact hij (h.getElem_inj_iff.mp hEq)

/-! ### Properties of the index draw -/

theorem drawFrom_length (n : Nat) : ∀ (g : Nat) (pool : List Nat),
    ((drawFrom g n pool).1).length = min n pool.length := by
  induction n with
  | zero => intro g pool; simp [drawFrom]
  | succ n ih =>
    intro g pool
    match pool with
    | [] => simp [drawFrom]
    | x :: p =>
      simp only [drawFrom, List.length_cons, ih, List.length_eraseIdx]
      have hj : lcgNext g % (p.length + 1) < p.length + 1 :=
        Nat.mod_lt _ (by omega)
      rw [if_pos hj]
      omega

theorem drawFrom_subset (n : Nat) : ∀ (g : Nat) (pool : List Nat),
    (drawFrom g n pool).1 ⊆ pool := by
  induction n with
  | zero => intro g pool; simp [drawFrom]
  | succ n ih =>
    intro g pool
    match pool with
    | [] => simp [drawFrom]
    | x :: p =>
      intro a ha
      have hj : lcgNext g % (x :: p).length < (x :: p).length :=
        Nat.mod_lt _ (by simp)
      simp only [drawFrom, List.mem_cons] at ha
      rcases ha with h | h
      · rw [h, getD_eq_getElem_of_lt _ _ _ hj]
        exact List.getElem_mem _
      · exact List.eraseIdx_subset _ _ (ih _ _ h)

theorem drawFrom_nodup (n : Nat) : ∀ (g : Nat) (pool : List Nat),
    pool.Nodup → ((drawFrom g n pool).1).Nodup := by
  induction n with
  | zero => intro g pool _; simp [drawFrom]
  | succ n ih =>
    intro g pool hp
    match pool with
    | [] => simp [drawFrom]
    | x :: p =>
      have hj : lcgNext g % (x :: p).length < (x :: p).length :=
        Nat.mod_lt _ (by simp)
      simp only [drawFrom]
      refine List.Nodup.cons ?_ (ih _ _ (hp.eraseIdx _))
      intro hmem
      have hsub := drawFrom_subset n (lcgNext g)
        ((x :: p).eraseIdx (lcgNext g % (x :: p).length)) hmem
      rw [getD_eq_getElem_of_lt _ _ _ hj] at hsub
      exact getElem_not_mem_eraseIdx _ _ hj hp hsub

/-! ### Properties of the scatter loops -/

theorem setLoop_length (w : Nat → ℚ) (idxs : List Nat) :
    ∀ (init : List ℚ),
      (idxs.foldl (fun acc i => acc.set i (w i)) init).length = init.length := by
  induction idxs with
  | nil => intro init; rfl
  | cons i t ih => intro init; rw [List.foldl_cons, ih, List.length_set]

theorem setLoop_getD (w : Nat → ℚ) (idxs : List Nat) :
    ∀ (init : List ℚ) (j : Nat), j < init.length →
      (idxs.foldl (fun acc i => acc.set i (w i)) init).getD j 0 =
        if j ∈ idxs then w j else init.getD j 0 := by
  induction idxs with
  | nil => intro init j hj; simp
  | cons i t ih =>
    intro init j hj
    rw [List.foldl_cons, ih _ j (by rw [List.length_set]; exact hj)]
    by_cases hjt : j ∈ t
    · simp [hjt]
    · by_cases hij : i = j
      · subst hij
        simp only [hjt, if_false, List.mem_cons, true_or, if_true]
        rw [getD_eq_getElem_of_lt _ _ _ (by rw [List.length_set]; exact hj)]
        simp
      · have hnot : j ∉ i :: t := by
          intro hmem
          rcases List.mem_cons.mp hmem with h | h
          · exact hij h.symm
          · exact hjt h
        simp only [hjt, if_false, hnot, if_false]
        rw [getD_eq_getElem_of_lt _ _ _ (by rw [List.length_set]; exact hj),
          getD_eq_getElem_of_lt _ _ _ hj]
        exact List.getElem_set_ne hij _

theorem getD_replicate_zero (n j : Nat) :
    (List.replicate n (0 : ℚ)).getD j 0 = 0 := by
  rw [List.getD_eq_getElem?_getD, List.getElem?_replicate]
  split <;> rfl

theorem recLoopSet_length (recs : List (Nat × ℚ)) :
    ∀ init : List ℚ,
      (recs.foldl (fun acc r => acc.set r.1 r.2) init).length = init.length := by
  induction recs with
  | nil => intro init; rfl
  | cons r t ih => intro init; rw [List.foldl_cons, ih, List.length_set]

theorem decompressImpl_length (size : Nat) (recs : List (Nat × ℚ)) :
    (decompressImpl size recs).length = size := by
  rw [decompressImpl, recLoopSet_length, List.length_replicate]

theorem compressImpl_map_fst (g k : Nat) (grad : List ℚ) :
    (compressImpl g k grad).1.map Prod.fst =
      (drawFrom g k (List.range grad.length)).1 := by
  simp only [compressImpl]
  have h : (Prod.fst ∘ fun i : Nat => (i, grad.getD i 0)) = id := rfl
  rw [List.map_map, h, List.map_id]

theorem compressImpl_length (g k : Nat) (grad : List ℚ) :
    (compressImpl g k grad).1.length = min k grad.length := by
  simp [compressImpl, drawFrom_length]

/-- Pointwise description of the decompressed round-trip: entry `j` is
`grad` at `j` when `j` was drawn and `0` otherwise. -/
theorem decompress_compress_getD (g k : Nat) (grad : List ℚ) (j : Nat)
    (hj : j < grad.length) :
    (decompressImpl grad.length (compressImpl g k grad).1).getD j 0 =
      if j ∈ (drawFrom g k (List.range grad.length)).1 then grad.getD j 0
      else 0 := by
  have hlen : j < (List.replicate grad.length (0 : ℚ)).length := by
    rw [List.length_replicate]; exact hj
  simp only [decompressImpl, compressImpl, List.foldl_map]
  rw [setLoop_getD (fun i => grad.getD i 0) _ _ _ hlen, getD_replicate_zero]

/-- The decompressed round-trip as a map over the index range. -/
theorem decompress_compress_eq_map (g k : Nat) (grad : List ℚ) :
    decompressImpl grad.length (compressImpl g k grad).1 =
      (List.range grad.length).map
        (fun j =>
          if j ∈ (drawFrom g k (List.range grad.length)).1 then grad.getD j 0
          else 0) := by
  apply List.ext_getElem
  · rw [decompressImpl_length, List.length_map, List.length_range]
  · intro j h1 h2
    have hj : j < grad.length := by
      rw [decompressImpl_length] at h1; exact h1
    have := decompress_compress_getD g k grad j hj
    rw [getD_eq_getElem_of_lt _ _ _ h1] at this
    rw [this, List.getElem_map, List.getElem_range]

theorem countP_mem_le_of_nodup (l idxs : List Nat) (hl : l.Nodup) :
    l.countP (fun j => decide (j ∈ idxs)) ≤ idxs.length := by
  rw [List.countP_eq_length_filter]
  refine List.Subperm.length_le (List.subperm_of_subset ?_ ?_)
  · exact hl.filter _
  · intro a ha
    exact of_decide_eq_true (List.mem_filter.mp ha).2

/-- With `k = size` the draw selects every index of the range. -/
theorem drawFrom_all_mem (g size j : Nat) (hj : j < size) :
    j ∈ (drawFrom g size (List.range size)).1 := by
  have hlen : ((drawFrom g size (List.range size)).1).length = size := by
    rw [drawFrom_length, List.length_range, Nat.min_self]
  have hnd : ((drawFrom g size (List.range size)).1).Nodup :=
    drawFrom_nodup _ _ _ (List.nodup_range _)
  have hcard : ((drawFrom g size (List.range size)).1).toFinset.card = size := by
    rw [List.toFinset_card_of_nodup hnd, hlen]
  have hsubF : ((drawFrom g size (List.range size)).1).toFinset ⊆
      Finset.range size := by
    intro a ha
    rw [List.mem_toFinset] at ha
    rw [Finset.mem_range]
    exact List.mem_range.mp (drawFrom_subset _ _ _ ha)
  have heq : ((drawFrom g size (List.range size)).1).toFinset =
      Finset.range size :=
    Finset.eq_of_subset_of_card_le hsubF (by rw [hcard, Finset.card_range])
  have hm : j ∈ ((drawFrom g size (List.range size)).1).toFinset := by
    rw [heq, Finset.mem_range]
    exact hj
  exact List.mem_toFinset.mp hm

/-! ### Claim theorems -/

/-- C1: for every size and k with 0 < k ≤ size and every gradient tensor
grad of size elements, Decompress(Compress(grad)) yields a size-element
result that has at most k non-zero entries, every non-zero entry equals grad
at that same index, and every other entry is exactly zero. -/
theorem randomk_roundtrip_sparsifies (c : RandomkCompressor) (grad : List ℚ)
    (hsize : c.size = grad.length) (hk0 : 0 < c.k) (hkle : c.k ≤ c.size) :
    (c.Decompress (c.Compress grad).1).length = c.size ∧
    (c.Decompress (c.Compress grad).1).countP (fun x => decide (x ≠ 0)) ≤
      c.k ∧
    (∀ j, j < c.size → (c.Decompress (c.Compress grad).1).getD j 0 ≠ 0 →
      (c.Decompress (c.Compress grad).1).getD j 0 = grad.getD j 0) ∧
    (∀ j, j < c.size →
      (c.Decompress (c.Compress grad).1).getD j 0 = grad.getD j 0 ∨
      (c.Decompress (c.Compress grad).1).getD j 0 = 0) := by
  have hD : c.Decompress (c.Compress grad).1 =
      decompressImpl grad.length (compressImpl c.gen c.k grad).1 := by
    rw [← hsize]
    rfl
  rw [hD, hsize]
  refine ⟨decompressImpl_length _ _, ?_, ?_, ?_⟩
  · rw [decompress_compress_eq_map, List.countP_map]
    have hmono : List.countP
        ((fun x => decide (x ≠ 0)) ∘ fun j =>
          if j ∈ (drawFrom c.gen c.k (List.range grad.length)).1 then
            grad.getD j 0 else 0)
        (List.range grad.length) ≤
        List.countP
          (fun j =>
            decide (j ∈ (drawFrom c.gen c.k (List.range grad.length)).1))
          (List.range grad.length) := by
      apply List.countP_mono_left
      intro a _ ha
      by_cases hmem : a ∈ (drawFrom c.gen c.k (List.range grad.length)).1
      · exact decide_eq_true hmem
      · simp only [Function.comp, if_neg hmem] at ha
        simp at ha
    have hcnt := countP_mem_le_of_nodup (List.range grad.length)
      (drawFrom c.gen c.k (List.range grad.length)).1 (List.nodup_range _)
    have hlen : ((drawFrom c.gen c.k (List.range grad.length)).1).length =
        min c.k grad.length := by
      rw [drawFrom_length, List.length_range]
    omega
  · intro j hj hne
    rw [decompress_compress_getD _ _ _ _ hj] at hne ⊢
    by_cases hmem : j ∈ (drawFrom c.gen c.k (List.range grad.length)).1
    · rw [if_pos hmem]
    · rw [if_neg hmem] at hne
      exact absurd rfl hne
  · intro j hj
    rw [decompress_compress_getD _ _ _ _ hj]
    by_cases hmem : j ∈ (drawFrom c.gen c.k (List.range grad.length)).1
    · left
      rw [if_pos hmem]
    · right
      rw [if_neg hmem]

theorem randomk_roundtrip_sparsifies_witness :
    (mkRandomkCompressor 3 2 0 true 0).size =
      List.length ([1, 2, 3] : List ℚ) ∧
    0 < (mkRandomkCompressor 3 2 0 true 0).k ∧
    (mkRandomkCompressor 3 2 0 true 0).k ≤
      (mkRandomkCompressor 3 2 0 true 0).size ∧
    (((mkRandomkCompressor 3 2 0 true 0).Decompress
        ((mkRandomkCompressor 3 2 0 true 0).Compress
          ([1, 2, 3] : List ℚ)).1).length =
      (mkRandomkCompressor 3 2 0 true 0).size ∧
    ((mkRandomkCompressor 3 2 0 true 0).Decompress
        ((mkRandomkCompressor 3 2 0 true 0).Compress
          ([1, 2, 3] : List ℚ)).1).countP (fun x => decide (x ≠ 0)) ≤
      (mkRandomkCompressor 3 2 0 true 0).k ∧
    (∀ j, j < (mkRandomkCompressor 3 2 0 true 0).size →
      ((mkRandomkCompressor 3 2 0 true 0).Decompress
        ((mkRandomkCompressor 3 2 0 true 0).Compress
          ([1, 2, 3] : List ℚ)).1).getD j 0 ≠ 0 →
      ((mkRandomkCompressor 3 2 0 true 0).Decompress
        ((mkRandomkCompressor 3 2 0 true 0).Compress
          ([1, 2, 3] : List ℚ)).1).getD j 0 =
        ([1, 2, 3] : List ℚ).getD j 0) ∧
    (∀ j, j < (mkRandomkCompressor 3 2 0 true 0).size →
      ((mkRandomkCompressor 3 2 0 true 0).Decompress
        ((mkRandomkCompressor 3 2 0 true 0).Compress
          ([1, 2, 3] : List ℚ)).1).getD j 0 =
        ([1, 2, 3] : List ℚ).getD j 0 ∨
      ((mkRandomkCompressor 3 2 0 true 0).Decompress
        ((mkRandomkCompressor 3 2 0 true 0).Compress
          ([1, 2, 3] : List ℚ)).1).getD j 0 = 0)) :=
  ⟨rfl, by decide, by decide,
    randomk_roundtrip_sparsifies _ _ rfl (by decide) (by decide)⟩

/-- C3: for every call to Compress, the indices emitted into a single
compressed buffer are drawn from [0, size) without replacement: no index
appears more than once within one compressed buffer. -/
theorem compress_indices_without_replacement (c : RandomkCompressor)
    (grad : List ℚ) (hsize : c.size = grad.length) :
    ((c.Compress grad).1.map Prod.fst).Nodup ∧
    ∀ i ∈ (c.Compress grad).1.map Prod.fst, i < c.size := by
  have hC : (c.Compress grad).1 = (compressImpl c.gen c.k grad).1 := rfl
  rw [hC, compressImpl_map_fst]
  constructor
  · exact drawFrom_nodup _ _ _ (List.nodup_range _)
  · intro i hi
    rw [hsize]
    exact List.mem_range.mp (drawFrom_subset _ _ _ hi)

theorem compress_indices_without_replacement_witness :
    (mkRandomkCompressor 3 2 0 true 0).size =
      List.length ([1, 2, 3] : List ℚ) ∧
    (((mkRandomkCompressor 3 2 0 true 0).Compress
        ([1, 2, 3] : List ℚ)).1.map Prod.fst).Nodup ∧
    ∀ i ∈ ((mkRandomkCompressor 3 2 0 true 0).Compress
        ([1, 2, 3] : List ℚ)).1.map Prod.fst,
      i < (mkRandomkCompressor 3 2 0 true 0).size :=
  ⟨rfl, compress_indices_without_replacement _ _ rfl⟩

/-- C5: when k = size, the compress/decompress round-trip is lossless:
Decompress(Compress(grad)) equals grad exactly at every index. -/
theorem randomk_roundtrip_lossless_k_eq_size (c : RandomkCompressor)
    (grad : List ℚ) (hsize : c.size = grad.length) (hk : c.k = c.size) :
    c.Decompress (c.Compress grad).1 = grad := by
  have hD : c.Decompress (c.Compress grad).1 =
      decompressImpl grad.length (compressImpl c.gen c.k grad).1 := by
    rw [← hsize]
    rfl
  rw [hD, hk, hsize]
  apply List.ext_getElem
  · rw [decompressImpl_length]
  · intro j h1 h2
    rw [← getD_eq_getElem_of_lt _ 0 _ h1, ← getD_eq_getElem_of_lt _ 0 _ h2,
      decompress_compress_getD _ _ _ _ h2,
      if_pos (drawFrom_all_mem _ _ _ h2)]

theorem randomk_roundtrip_lossless_witness :
    (mkRandomkCompressor 2 2 42 true 0).size =
      List.length ([3, 7] : List ℚ) ∧
    (mkRandomkCompressor 2 2 42 true 0).k =
      (mkRandomkCompressor 2 2 42 true 0).size ∧
    (mkRandomkCompressor 2 2 42 true 0).Decompress
      ((mkRandomkCompressor 2 2 42 true 0).Compress ([3, 7] : List ℚ)).1 =
      ([3, 7] : List ℚ) :=
  ⟨rfl, rfl, randomk_roundtrip_lossless_k_eq_size _ _ rfl rfl⟩

theorem fastUpdateErrorImpl_eq_setLoop (corrected : List ℚ)
    (recs : List (Nat × ℚ)) :
    fastUpdateErrorImpl corrected recs =
      (recs.map Prod.fst).foldl (fun acc i => acc.set i 0) corrected := by
  rw [fastUpdateErrorImpl, List.foldl_map]

theorem fastUpdateErrorImpl_getD (corrected : List ℚ)
    (recs : List (Nat × ℚ)) (j : Nat) (hj : j < corrected.length) :
    (fastUpdateErrorImpl corrected recs).getD j 0 =
      if j ∈ recs.map Prod.fst then 0 else corrected.getD j 0 := by
  rw [fastUpdateErrorImpl_eq_setLoop]
  exact setLoop_getD (fun _ => 0) _ _ _ hj

/-- C2: after FastUpdateError(error, C, compressed) the error buffer holds 0
at every index selected in the compressed payload and C at every other
index, and the selection is read from the indices embedded in the compressed
payload rather than re-derived from values: the result depends only on the
index fields of the records. -/
theorem fast_update_error_residual (c : RandomkCompressor) (C : List ℚ)
    (recs : List (Nat × ℚ)) :
    (∀ j, j < C.length → j ∈ recs.map Prod.fst →
      (c.FastUpdateError C recs).getD j 0 = 0) ∧
    (∀ j, j < C.length → j ∉ recs.map Prod.fst →
      (c.FastUpdateError C recs).getD j 0 = C.getD j 0) ∧
    (∀ recs2 : List (Nat × ℚ), recs.map Prod.fst = recs2.map Prod.fst →
      c.FastUpdateError C recs = c.FastUpdateError C recs2) := by
  refine ⟨?_, ?_, ?_⟩
  · intro j hj hmem
    rw [RandomkCompressor.FastUpdateError, fastUpdateErrorImpl_getD _ _ _ hj,
      if_pos hmem]
  · intro j hj hmem
    rw [RandomkCompressor.FastUpdateError, fastUpdateErrorImpl_getD _ _ _ hj,
      if_neg hmem]
  · intro recs2 hidx
    rw [RandomkCompressor.FastUpdateError, RandomkCompressor.FastUpdateError,
      fastUpdateErrorImpl_eq_setLoop, fastUpdateErrorImpl_eq_setLoop, hidx]

theorem fast_update_error_residual_witness :
    ((mkRandomkCompressor 2 1 0 true 0).FastUpdateError ([4, 9] : List ℚ)
        [(0, 4)]).getD 0 0 = 0 ∧
    ((mkRandomkCompressor 2 1 0 true 0).FastUpdateError ([4, 9] : List ℚ)
        [(0, 4)]).getD 1 0 = ([4, 9] : List ℚ).getD 1 0 :=
  ⟨(fast_update_error_residual (mkRandomkCompressor 2 1 0 true 0) [4, 9]
      [(0, 4)]).1 0 (by decide) (by decide),
    (fast_update_error_residual (mkRandomkCompressor 2 1 0 true 0) [4, 9]
      [(0, 4)]).2.1 1 (by decide) (by decide)⟩

/-- C4: two freshly constructed RandomkCompressor instances with
deterministic = true and the same seed, fed the identical input sequence,
produce byte-identical packed outputs on every corresponding Compress call,
whatever the entropy-source outcomes were. -/
theorem deterministic_two_run_equality (size k seed e1 e2 : Nat)
    (venc : ℚ → List Nat) (grads : List (List ℚ)) :
    runCompressBytes venc (mkRandomkCompressor size k seed true e1) grads =
      runCompressBytes venc (mkRandomkCompressor size k seed true e2)
        grads := rfl

/-- C8: the Momentum decorator's decompress, update_error and
fast_update_error return exactly what the wrapped Compressor's corresponding
operation returns on the same input, with no modification. -/
theorem momentum_forwards_noncompress (m : MomentumRk) (corrected : List ℚ)
    (recs : List (Nat × ℚ)) :
    m.Decompress recs = m.inner.Decompress recs ∧
    m.UpdateError corrected recs = m.inner.UpdateError corrected recs ∧
    m.FastUpdateError corrected recs =
      m.inner.FastUpdateError corrected recs :=
  ⟨rfl, rfl, rfl⟩

/-- C9: configuration errors (k > size, size = 0, element-count mismatch
between the instance and a call argument) cause a fail-fast non-retryable
failure: no checked Compress, Decompress or error-update call returns a
success value under such a misconfiguration, while well-configured calls
succeed. -/
theorem config_errors_fail_fast (c : RandomkCompressor)
    (grad corrected : List ℚ) (recs : List (Nat × ℚ)) :
    ((c.size = 0 ∨ c.size < c.k ∨ grad.length ≠ c.size) →
      (c.CompressChecked grad).isOk = false) ∧
    ((c.size = 0 ∨ c.size < c.k ∨ recs.length ≠ c.k) →
      (c.DecompressChecked recs).isOk = false) ∧
    ((c.size = 0 ∨ c.size < c.k ∨ corrected.length ≠ c.size) →
      (c.FastUpdateErrorChecked corrected recs).isOk = false) ∧
    ((c.size ≠ 0 ∧ c.k ≤ c.size ∧ grad.length = c.size) →
      (c.CompressChecked grad).isOk = true) := by
  refine ⟨?_, ?_, ?_, ?_⟩
  · intro h
    rw [RandomkCompressor.CompressChecked]
    split
    · rfl
    · split
      · rfl
      · split
        · rfl
        · omega
  · intro h
    rw [RandomkCompressor.DecompressChecked]
    split
    · rfl
    · split
      · rfl
      · split
        · rfl
        · omega
  · intro h
    rw [RandomkCompressor.FastUpdateErrorChecked]
    split
    · rfl
    · split
      · rfl
      · split
        · rfl
        · omega
  · intro h
    rw [RandomkCompressor.CompressChecked]
    split
    · omega
    · split
      · omega
      · split
        · omega
        · rfl

theorem config_errors_fail_fast_witness :
    ((mkRandomkCompressor 2 3 0 true 0).CompressChecked
      ([1, 2] : List ℚ)).isOk = false :=
  (config_errors_fail_fast (mkRandomkCompressor 2 3 0 true 0) [1, 2] []
    []).1 (by decide)

/-- C10: when the deterministic flag is false the seed argument is never
read: with the same entropy-source outcome, any two seeds yield identical
constructed state (hence identical subsequent behaviour). -/
theorem seed_ignored_when_nondeterministic (size k s1 s2 e : Nat) :
    mkRandomkCompressor size k s1 false e =
      mkRandomkCompressor size k s2 false e := rfl

theorem updateMom_zero (mu : ℚ) (g : List ℚ) :
    UpdateMom mu g (List.replicate g.length 0) = g := by
  induction g with
  | nil => rfl
  | cons a t ih =>
    simp only [List.length_cons, List.replicate_succ, UpdateMom,
      List.zipWith_cons_cons, mul_zero, zero_add]
    simp only [UpdateMom] at ih
    rw [ih]

theorem updateMom_comm (mu : ℚ) (g m : List ℚ) :
    UpdateMom mu g m = List.zipWith (fun a b => mu * a + b) m g := by
  rw [UpdateMom, List.zipWith_comm]

/-- C7: VanillaMomentum updates the buffer by momentum <- mu * momentum +
grad element-wise; for a fresh zero-initialized instance, after g1 the
momentum buffer equals g1, after g2 it equals mu*g1 + g2 element-wise, and
the value forwarded into the wrapped compressor on round 2 is that updated
momentum buffer. -/
theorem vanilla_momentum_two_rounds {σ : Type} (mu : ℚ) (size : Nat)
    (inner : List ℚ → σ → List (Nat × ℚ) × σ) (s0 : σ) (g1 g2 : List ℚ)
    (h1 : g1.length = size) (h2 : g2.length = size) :
    ((mkMomentum σ mu size inner s0).Compress g1).2.2.mom = g1 ∧
    ((mkMomentum σ mu size inner s0).Compress g1).2.1 = g1 ∧
    (((mkMomentum σ mu size inner s0).Compress g1).2.2.Compress g2).2.2.mom =
      List.zipWith (fun a b => mu * a + b) g1 g2 ∧
    (((mkMomentum σ mu size inner s0).Compress g1).2.2.Compress g2).2.1 =
      (((mkMomentum σ mu size inner s0).Compress g1).2.2.Compress
        g2).2.2.mom := by
  have hm1 : ((mkMomentum σ mu size inner s0).Compress g1).2.2.mom =
      UpdateMom mu g1 (List.replicate size 0) := rfl
  have hz : UpdateMom mu g1 (List.replicate size 0) = g1 := by
    rw [← h1]
    exact updateMom_zero mu g1
  have hf1 : ((mkMomentum σ mu size inner s0).Compress g1).2.1 =
      UpdateMom mu g1 (List.replicate size 0) := rfl
  have hm2 :
      (((mkMomentum σ mu size inner s0).Compress g1).2.2.Compress
        g2).2.2.mom =
      UpdateMom mu g2 (((mkMomentum σ mu size inner s0).Compress
        g1).2.2.mom) := rfl
  have hf2 :
      (((mkMomentum σ mu size inner s0).Compress g1).2.2.Compress g2).2.1 =
      UpdateMom mu g2 (((mkMomentum σ mu size inner s0).Compress
        g1).2.2.mom) := rfl
  refine ⟨hm1.trans hz, hf1.trans hz, ?_, hf2.trans hm2.symm⟩
  rw [hm2, hm1, hz, updateMom_comm]

theorem vanilla_momentum_two_rounds_witness :
    List.length ([1, 2] : List ℚ) = 2 ∧
    List.length ([10, 20] : List ℚ) = 2 ∧
    (((mkMomentum Unit 3 2 (fun v _ => (v.map fun q => (0, q), ())) ()).Compress
        ([1, 2] : List ℚ)).2.2.mom = ([1, 2] : List ℚ) ∧
    ((mkMomentum Unit 3 2 (fun v _ => (v.map fun q => (0, q), ())) ()).Compress
        ([1, 2] : List ℚ)).2.1 = ([1, 2] : List ℚ) ∧
    (((mkMomentum Unit 3 2 (fun v _ => (v.map fun q => (0, q), ())) ()).Compress
        ([1, 2] : List ℚ)).2.2.Compress ([10, 20] : List ℚ)).2.2.mom =
      List.zipWith (fun a b => (3 : ℚ) * a + b) ([1, 2] : List ℚ)
        ([10, 20] : List ℚ) ∧
    (((mkMomentum Unit 3 2 (fun v _ => (v.map fun q => (0, q), ())) ()).Compress
        ([1, 2] : List ℚ)).2.2.Compress ([10, 20] : List ℚ)).2.1 =
      (((mkMomentum Unit 3 2 (fun v _ => (v.map fun q => (0, q), ())) ()).Compress
        ([1, 2] : List ℚ)).2.2.Compress ([10, 20] : List ℚ)).2.2.mom) :=
  ⟨rfl, rfl,
    vanilla_momentum_two_rounds 3 2 (fun v _ => (v.map fun q => (0, q), ()))
      () [1, 2] [10, 20] rfl rfl⟩

theorem toLE_length (w : Nat) : ∀ n : Nat, (toLE w n).length = w := by
  induction w with
  | zero => intro n; rfl
  | succ w ih => intro n; simp only [toLE, List.length_cons, ih]

theorem fromLE_toLE (w : Nat) : ∀ n : Nat, n < 256 ^ w →
    fromLE (toLE w n) = n := by
  induction w with
  | zero =>
    intro n hn
    simp only [pow_zero, Nat.lt_one_iff] at hn
    rw [hn]
    rfl
  | succ w ih =>
    intro n hn
    have hdiv : n / 256 < 256 ^ w := by
      rw [Nat.div_lt_iff_lt_mul (by omega)]
      calc n < 256 ^ (w + 1) := hn
        _ = 256 ^ w * 256 := by rw [pow_succ]
    simp only [toLE, fromLE, ih _ hdiv]
    omega

theorem size_le_pow_indexBytes (size : Nat) (h : size ≤ 2 ^ 64) :
    size ≤ 256 ^ indexBytes size := by
  rw [indexBytes]
  split_ifs with h1 h2 h3 <;> norm_num at * <;> omega

theorem packBuffer_length (size vw : Nat) (venc : ℚ → List Nat)
    (hv : ∀ q, (venc q).length = vw) :
    ∀ recs : List (Nat × ℚ),
      (packBuffer size venc recs).length =
        recs.length * (indexBytes size + vw) := by
  intro recs
  induction recs with
  | nil => simp [packBuffer]
  | cons r t ih =>
    simp only [packBuffer, List.map_cons, List.flatten_cons,
      List.length_append, List.length_cons, toLE_length, hv]
    simp only [packBuffer] at ih
    rw [ih]
    ring

theorem unpack_pack (size vw : Nat) (venc : ℚ → List Nat)
    (vdec : List Nat → ℚ) (hv : ∀ q, (venc q).length = vw)
    (hsz : size ≤ 2 ^ 64) :
    ∀ recs : List (Nat × ℚ), (∀ r ∈ recs, r.1 < size) →
      (∀ r ∈ recs, vdec (venc r.2) = r.2) →
      unpackBuffer (indexBytes size) vw vdec recs.length
        (packBuffer size venc recs) = recs := by
  intro recs
  induction recs with
  | nil => intro _ _; rfl
  | cons r t ih =>
    intro hlt hd
    simp only [packBuffer, List.map_cons, List.flatten_cons,
      List.length_cons, unpackBuffer, List.append_assoc]
    have htake : (toLE (indexBytes size) r.1 ++
        (venc r.2 ++ (t.map fun s =>
          toLE (indexBytes size) s.1 ++ venc s.2).flatten)).take
          (indexBytes size) = toLE (indexBytes size) r.1 :=
      List.take_left' (toLE_length _ _)
    have hdrop : (toLE (indexBytes size) r.1 ++
        (venc r.2 ++ (t.map fun s =>
          toLE (indexBytes size) s.1 ++ venc s.2).flatten)).drop
          (indexBytes size) =
        venc r.2 ++ (t.map fun s =>
          toLE (indexBytes size) s.1 ++ venc s.2).flatten :=
      List.drop_left' (toLE_length _ _)
    rw [htake, hdrop, List.take_left' (hv r.2), List.drop_left' (hv r.2),
      fromLE_toLE _ _ (lt_of_lt_of_le (hlt r (List.mem_cons_self r t))
        (size_le_pow_indexBytes size hsz)),
      hd r (List.mem_cons_self r t)]
    have ihx := ih (fun s hs => hlt s (List.mem_cons_of_mem r hs))
      (fun s hs => hd s (List.mem_cons_of_mem r hs))
    simp only [packBuffer] at ihx
    rw [ihx]

/-- C6: the index field of each packed record uses the smallest unsigned
integer width (1, 2, 4 or 8 bytes) able to represent size - 1, and the
compressed buffer is a flat header-less sequence of exactly k
[index][value] records, recoverable only with the out-of-band k, size and
element-type information. -/
theorem packed_format_minimal_width (size vw : Nat) (venc : ℚ → List Nat)
    (vdec : List Nat → ℚ) (recs : List (Nat × ℚ)) (h0 : 0 < size)
    (hsz : size ≤ 2 ^ 64) (hv : ∀ q, (venc q).length = vw)
    (hlt : ∀ r ∈ recs, r.1 < size)
    (hd : ∀ r ∈ recs, vdec (venc r.2) = r.2) :
    (size - 1 < 256 ^ indexBytes size ∧
      ∀ w ∈ ([1, 2, 4, 8] : List Nat), size - 1 < 256 ^ w →
        indexBytes size ≤ w) ∧
    (packBuffer size venc recs).length =
      recs.length * (indexBytes size + vw) ∧
    unpackBuffer (indexBytes size) vw vdec recs.length
      (packBuffer size venc recs) = recs := by
  refine ⟨⟨?_, ?_⟩, packBuffer_length size vw venc hv recs,
    unpack_pack size vw venc vdec hv hsz recs hlt hd⟩
  · have := size_le_pow_indexBytes size hsz
    omega
  · intro w hw hltw
    fin_cases hw <;>
      (rw [indexBytes]; split_ifs with h1 h2 h3 <;> norm_num at * <;> omega)

theorem packed_format_minimal_width_witness :
    (0 : Nat) < 300 ∧ (300 : Nat) ≤ 2 ^ 64 ∧
    (∀ q : ℚ, ((fun _ : ℚ => [(7 : Nat)]) q).length = 1) ∧
    (∀ r ∈ ([(0, 5), (299, 5)] : List (Nat × ℚ)), r.1 < 300) ∧
    (∀ r ∈ ([(0, 5), (299, 5)] : List (Nat × ℚ)),
      (fun _ : List Nat => (5 : ℚ)) ((fun _ : ℚ => [(7 : Nat)]) r.2) =
        r.2) ∧
    ((300 - 1 < 256 ^ indexBytes 300 ∧
      ∀ w ∈ ([1, 2, 4, 8] : List Nat), 300 - 1 < 256 ^ w →
        indexBytes 300 ≤ w) ∧
    (packBuffer 300 (fun _ : ℚ => [(7 : Nat)])
        ([(0, 5), (299, 5)] : List (Nat × ℚ))).length =
      ([(0, 5), (299, 5)] : List (Nat × ℚ)).length * (indexBytes 300 + 1) ∧
    unpackBuffer (indexBytes 300) 1 (fun _ : List Nat => (5 : ℚ))
        ([(0, 5), (299, 5)] : List (Nat × ℚ)).length
        (packBuffer 300 (fun _ : ℚ => [(7 : Nat)])
          ([(0, 5), (299, 5)] : List (Nat × ℚ))) =
      ([(0, 5), (299, 5)] : List (Nat × ℚ))) :=
  ⟨by norm_num, by norm_num, fun q => rfl, by decide,
    fun r hr => by
      rcases List.mem_cons.mp hr with h | h
      · rw [h]
      · rcases List.mem_cons.mp h with h2 | h2
        · rw [h2]
        · exact absurd h2 (List.not_mem_nil r),
    packed_format_minimal_width 300 1 (fun _ => [7]) (fun _ => 5)
      [(0, 5), (299, 5)] (by norm_num) (by norm_num) (fun q => rfl)
      (by decide)
      (fun r hr => by
        rcases List.mem_cons.mp hr with h | h
        · rw [h]
        · rcases List.mem_cons.mp h with h2 | h2
          · rw [h2]
          · exact absurd h2 (List.not_mem_nil r))⟩

end Byteps
